import Mathlib

/-!
Verification development for the `pyshell` / `shellhost` repository.

The definitions below are a shallow embedding of the Python sources:

* `src/src/shellhost/shellhost_ast.py`      — AST builder and pipe linker
* `src/src/shellhost/shellhost_shell.py`    — executor, variable table, expansions
* `src/src/shellhost/shellhost_command.py`  — command registry and argument binder
* `src/src/shellhost/shellhost_io.py`       — job abstraction (`Job.poll`)

Conventions used throughout:

* Python strings are Lean `String`s (ASCII fragment; `str.isidentifier` and
  `str.strip` are embedded over their ASCII behaviour, which covers every
  input appearing in the theorems).
* Python exceptions are `Except` errors carrying the exception kind.
* OS-level pipes (`JobIO()` allocations, i.e. `os.pipe()`) are modelled by an
  allocation counter: each allocation yields a fresh identifier `pipe n`.
  Two stream destinations hold *the very same* pipe object iff they carry
  the same identifier.
* The external tokenizer (`shellparser.parse_args`) is out of scope per the
  spec and is passed in as a parameter `tokenize`.
* Recursion through command substitution (`build_ast` calling itself on the
  re-tokenized inner text) and through subshell children in `link_pipes` is
  bounded by an explicit `fuel` parameter; the Python code has no such bound,
  and every theorem below instantiates `fuel` strictly above the nesting
  depth of its input, where the two behaviours coincide.
-/

namespace Shellhost

/-- Stream destinations held by a node's `stdin` / `stdout` / `stderr` field.
`inheritStdin` / `inheritStdout` / `inheritStderr` are the `BaseNode`
defaults `sys.stdin` / `sys.stdout` / `sys.stderr`; `pipeOutMarker` and
`pipeInMarker` are the parse-time strings `'PIPE_OUT'` / `'PIPE_IN'`;
`pipe n` is the `JobIO` object with allocation identifier `n`;
`file path mode` is `open(path, mode)`. -/
inductive StreamDest where
  | inheritStdin
  | inheritStdout
  | inheritStderr
  | pipeOutMarker
  | pipeInMarker
  | pipe (id : Nat)
  | file (path : String) (mode : String)
deriving DecidableEq, Repr

mutual
/-- An element of `CommandNode.arguments`: a plain string or a
`CommandSubstitutionNode` carrying a nested AST (`shellhost_ast.py`). -/
inductive Arg where
  | literal (s : String)
  | subst (innerAst : List Node)

/-- A syntax node: `CommandNode` (arguments plus three stream fields) or
`SubshellNode` (children plus three stream fields), as in
`shellhost_ast.py`. -/
inductive Node where
  | cmd (arguments : List Arg) (stdin stdout stderr : StreamDest)
  | subshell (children : List Node) (stdin stdout stderr : StreamDest)
end

instance : Inhabited Node := ⟨.cmd [] .inheritStdin .inheritStdout .inheritStderr⟩

/-- The `stdin` field of a node. -/
def Node.stdinOf : Node → StreamDest
  | .cmd _ i _ _ => i
  | .subshell _ i _ _ => i

/-- The `stdout` field of a node. -/
def Node.stdoutOf : Node → StreamDest
  | .cmd _ _ o _ => o
  | .subshell _ _ o _ => o

/-- The `stderr` field of a node. -/
def Node.stderrOf : Node → StreamDest
  | .cmd _ _ _ e => e
  | .subshell _ _ _ e => e

/-- Overwrite the `stdin` field of a node. -/
def Node.setStdin (d : StreamDest) : Node → Node
  | .cmd a _ o e => .cmd a d o e
  | .subshell c _ o e => .subshell c d o e

/-- Overwrite the `stdout` field of a node. -/
def Node.setStdout (d : StreamDest) : Node → Node
  | .cmd a i _ e => .cmd a i d e
  | .subshell c i _ e => .subshell c i d e

/-- Overwrite the `stderr` field of a node. -/
def Node.setStderr (d : StreamDest) : Node → Node
  | .cmd a i o _ => .cmd a i o d
  | .subshell c i o _ => .subshell c i o d

/-- Append one argument to a `CommandNode`'s argument list
(`stack[-1][-1].arguments.append(parsed_arg)`); the builder only reaches
this on command nodes, so subshells are returned unchanged. -/
def Node.appendArg (a : Arg) : Node → Node
  | .cmd args i o e => .cmd (args ++ [a]) i o e
  | .subshell c i o e => .subshell c i o e

/-- Is this node a `SubshellNode`? (`isinstance(stack[-1][-1], SubshellNode)`). -/
def Node.isSubshell : Node → Bool
  | .subshell _ _ _ _ => true
  | .cmd _ _ _ _ => false

/-- Mutate the last element of a node list in place, as the Python builder
does through `stack[-1][-1]`. -/
def updateLast (f : Node → Node) : List Node → List Node
  | [] => []
  | [n] => [f n]
  | n :: m :: rest => n :: updateLast f (m :: rest)

/-- Builder state: `outer` holds the enclosing scopes of `stack`
(`stack = outer ++ [top]`, innermost last), `top` is `stack[-1]`, and
`pending` is `next_stdin_source` (`None` or `'PIPE_IN'`). -/
structure BState where
  outer : List (List Node)
  top : List Node
  pending : Option StreamDest
deriving Inhabited

/-- Python `str.startswith` over the character list. -/
def strStartsWith (s p : String) : Bool :=
  s.data.take p.data.length == p.data

/-- Python `str.endswith` over the character list. -/
def strEndsWith (s p : String) : Bool :=
  s.data.reverse.take p.data.length == p.data.reverse

/-- Python `str.split(sep)` for a one-character separator (the only kind
the sources use: `'='` and `'|'`). -/
def splitChar (sep : Char) : List Char → List (List Char)
  | [] => [[]]
  | c :: rest =>
    let r := splitChar sep rest
    if c == sep then
      [] :: r
    else
      match r with
      | [] => [[c]]
      | h :: t => (c :: h) :: t

/-- Python `str.split(sep)` returning strings. -/
def pySplitOn (s : String) (sep : Char) : List String :=
  (splitChar sep s.data).map (fun l => ⟨l⟩)

/-- `parse_argument` from `shellhost_ast.py`: a token of the exact shape
`$(...)` has its inner text re-tokenized and recursively built into a
nested AST (`recur`); every other token is the literal string. -/
def parseArgument (tokenize : String → List String)
    (recur : List String → Except String (List Node)) (token : String) :
    Except String Arg :=
  if strStartsWith token "$(" && strEndsWith token ")" then
    (recur (tokenize ((token.drop 2).dropRight 1))).map Arg.subst
  else
    .ok (.literal token)

/-- The `'('` branch: push a new empty scope; `next_stdin_source` carries
across into the subshell (the source's commented choice). -/
def pushScope (st : BState) : BState :=
  { outer := st.outer ++ [st.top], top := [], pending := st.pending }

/-- The `')'` branch: pop the scope (error when only the root scope
remains), wrap it as a `SubshellNode`, apply the pending stdin marker if
set (clearing it), and append the subshell to the enclosing scope. -/
def closeScope (st : BState) : Except String BState :=
  match st.outer.getLast? with
  | none => .error "Unbalanced parentheses: too many ')'"
  | some parent =>
    let sub0 : Node := .subshell st.top .inheritStdin .inheritStdout .inheritStderr
    match st.pending with
    | some d =>
      .ok { outer := st.outer.dropLast, top := parent ++ [sub0.setStdin d], pending := none }
    | none =>
      .ok { outer := st.outer.dropLast, top := parent ++ [sub0], pending := none }

/-- The `'|'` branch (scope already known nonempty): set the last node's
stdout to the `'PIPE_OUT'` marker and flag `'PIPE_IN'` as pending. -/
def pipeScope (st : BState) : BState :=
  { st with top := updateLast (Node.setStdout .pipeOutMarker) st.top,
            pending := some .pipeInMarker }

/-- A redirection branch (scope nonempty, target consumed): overwrite the
last node's stream with the `File(target, mode)` destination selected by
the token. -/
def applyRedir (st : BState) (token target : String) : BState :=
  let f : Node → Node :=
    if token = ">" then Node.setStdout (.file target "w")
    else if token = ">>" then Node.setStdout (.file target "a")
    else if token = "2>" then Node.setStderr (.file target "w")
    else Node.setStdin (.file target "r")
  { st with top := updateLast f st.top }

/-- The word branch with the argument already parsed: start a new
`CommandNode` when the scope is empty, the last node is a subshell, or a
pipe marker is pending (applying and clearing it); otherwise append the
argument to the last node. -/
def wordStep (st : BState) (a : Arg) : BState :=
  let startNew : Bool :=
    st.top.isEmpty ||
    (match st.top.getLast? with
     | some n => n.isSubshell
     | none => false) ||
    st.pending.isSome
  if startNew then
    { st with
      top := st.top ++
        [.cmd [a] (st.pending.getD .inheritStdin) .inheritStdout .inheritStderr],
      pending := none }
  else
    { st with top := updateLast (Node.appendArg a) st.top }

/-- The token loop of `build_ast` (`shellhost_ast.py`), one step per token.
`pa` is `parse_argument` with the recursive call already closed over.
Note that the redirection branch tests membership in
`('>', '>>', '2>', '<')` exactly as the source does — `2>>` is absent from
that tuple (its `elif token == '2>>'` arm in the source is unreachable),
and it is also absent from the word-branch exclusion tuple, so `2>>` falls
through to the word branch. -/
def buildLoop (pa : String → Except String Arg) :
    BState → List String → Except String BState
  | st, [] => .ok st
  | st, token :: rest =>
    if token = "(" then
      buildLoop pa (pushScope st) rest
    else if token = ")" then
      (closeScope st).bind (fun st2 => buildLoop pa st2 rest)
    else if token = "|" then
      if st.top.isEmpty then
        .error "Pipe '|' with no previous command"
      else
        buildLoop pa (pipeScope st) rest
    else if token = ">" || token = ">>" || token = "2>" || token = "<" then
      if st.top.isEmpty then
        .error ("Redirection '" ++ token ++ "' with no previous command")
      else
        match rest with
        | [] => .error ("Missing target for '" ++ token ++ "'")
        | target :: rest2 => buildLoop pa (applyRedir st token target) rest2
    else
      (pa token).bind (fun a => buildLoop pa (wordStep st a) rest)

/-- `build_ast` from `shellhost_ast.py`. `fuel` bounds the recursion through
command substitutions (see the file header); the Python source is the
`fuel + 1` case verbatim. -/
def buildAST (tokenize : String → List String) :
    Nat → List String → Except String (List Node)
  | 0, _ => .error "substitution nesting exceeds fuel"
  | fuel + 1, tokens => do
    let st ← buildLoop (parseArgument tokenize (buildAST tokenize fuel))
      { outer := [], top := [], pending := none } tokens
    if st.outer.isEmpty then
      pure st.top
    else
      .error "Unbalanced parentheses: missing ')'"

/-- Phase 1 of `link_pipes`: the `for i in range(len(nodes) - 1)` loop.
When the earlier node's stdout is `'PIPE_OUT'` and the next node's stdin is
`'PIPE_IN'`, one `JobIO()` is allocated (`counter` is the allocation
counter) and both fields are overwritten with that same object. The
mutation of `nodes[i+1]` is visible when the loop inspects the pair
`(i+1, i+2)`, which the recursion mirrors. -/
def linkAdjGo (cur : Node) (rest : List Node) (counter : Nat) : List Node × Nat :=
  match rest with
  | [] => ([cur], counter)
  | nxt :: rest2 =>
    if cur.stdoutOf = .pipeOutMarker ∧ nxt.stdinOf = .pipeInMarker then
      let r := linkAdjGo (nxt.setStdin (.pipe counter)) rest2 (counter + 1)
      (cur.setStdout (.pipe counter) :: r.1, r.2)
    else
      let r := linkAdjGo nxt rest2 counter
      (cur :: r.1, r.2)

/-- Entry point of phase 1. -/
def linkAdj : List Node → Nat → List Node × Nat
  | [], counter => ([], counter)
  | n :: rest, counter => linkAdjGo n rest counter

/-- Phase 2 of `link_pipes`: recurse into every `SubshellNode`'s children,
threading the allocation counter; `recur` is the recursive `link_pipes`
call. -/
def linkSubs (recur : List Node → Nat → List Node × Nat) :
    List Node → Nat → List Node × Nat
  | [], counter => ([], counter)
  | .subshell ch i o e :: rest, counter =>
    let r1 := recur ch counter
    let r2 := linkSubs recur rest r1.2
    (.subshell r1.1 i o e :: r2.1, r2.2)
  | n :: rest, counter =>
    let r := linkSubs recur rest counter
    (n :: r.1, r.2)

/-- `link_pipes` from `shellhost_ast.py`: phase 1 then phase 2; `fuel`
bounds the subshell nesting depth (see the file header). -/
def linkPipes : Nat → List Node → Nat → List Node × Nat
  | 0, nodes, counter => (nodes, counter)
  | fuel + 1, nodes, counter =>
    let r := linkAdj nodes counter
    linkSubs (linkPipes fuel) r.1 r.2

/-- A trivial stand-in for the external tokenizer, used only in closed
theorems whose tokens never take the `$(...)` shape, so it is never
invoked there. -/
def noTokenize : String → List String := fun _ => []

/-- A token that the builder's `elif` cascade routes to the word branch:
not one of the seven comparisons the builder performs, and not of the
`$(...)` substitution shape. -/
def plainWord (t : String) : Bool :=
  !(t == "(" || t == ")" || t == "|" || t == ">" || t == ">>" || t == "2>" || t == "<") &&
  !(strStartsWith t "$(" && strEndsWith t ")")

/-- Token sequence `stage1 | stage2 | ... | stageK`: the stages joined by
single `"|"` tokens. -/
def joinPipes : List (List String) → List String
  | [] => []
  | [s] => s
  | s :: s2 :: rest => s ++ "|" :: joinPipes (s2 :: rest)

/-- The node list `build_ast` produces for `joinPipes stages` when every
stage is a nonempty run of plain words: one `CommandNode` per stage, the
first reading from `d`, every later one from the `'PIPE_IN'` marker, and
every stage but the last writing to the `'PIPE_OUT'` marker. -/
def chainFrom (d : StreamDest) : List (List String) → List Node
  | [] => []
  | s :: rest =>
    .cmd (s.map Arg.literal) d
      (if rest.isEmpty then .inheritStdout else .pipeOutMarker) .inheritStderr ::
    chainFrom .pipeInMarker rest

/-- The same chain after `link_pipes`: the markers of each adjacent pair
are replaced by one freshly allocated pipe object, numbered from `c`. -/
def linkedChain (d : StreamDest) (c : Nat) : List (List String) → List Node
  | [] => []
  | s :: rest =>
    .cmd (s.map Arg.literal) d
      (if rest.isEmpty then .inheritStdout else .pipe c) .inheritStderr ::
    linkedChain (.pipe c) (c + 1) rest

/-! ## Variable table, `str.strip`, `str.isidentifier` (shellhost_shell.py) -/

/-- The shell's variable table `self.variables` (a Python dict name → string,
insertion-ordered). -/
abbrev VarTable := List (String × String)

/-- Python dict lookup. -/
def varGet (vars : VarTable) (k : String) : Option String :=
  (vars.find? (fun p => p.1 == k)).map (fun p => p.2)

/-- Python dict store: an existing key keeps its position, a new key is
appended. -/
def varSet (vars : VarTable) (k : String) (v : String) : VarTable :=
  match vars with
  | [] => [(k, v)]
  | (k0, v0) :: rest => if k0 == k then (k, v) :: rest else (k0, v0) :: varSet rest k v

/-- The characters Python's `str.strip()` removes (ASCII whitespace). -/
def isPySpace (c : Char) : Bool :=
  c == ' ' || c == '\t' || c == '\n' || c == '\r' || c == '\x0b' || c == '\x0c'

/-- Python `str.strip()` on a character list: drop whitespace from both
ends. -/
def pyStripList (l : List Char) : List Char :=
  ((l.dropWhile isPySpace).reverse.dropWhile isPySpace).reverse

/-- Python `str.strip()` (ASCII fragment). -/
def pyStrip (s : String) : String := ⟨pyStripList s.data⟩

/-- First character of a Python identifier (ASCII fragment). -/
def isIdentStart (c : Char) : Bool := c.isAlpha || c == '_'

/-- Later character of a Python identifier (ASCII fragment). -/
def isIdentCont (c : Char) : Bool := c.isAlphanum || c == '_'

/-- Python `str.isidentifier()` (ASCII fragment). -/
def pyIsIdentifier (s : String) : Bool :=
  match s.data with
  | [] => false
  | c :: rest => isIdentStart c && rest.all isIdentCont

/-- `Shell.handle_variable_assignment` (`shellhost_shell.py`): on the raw
first-argument string, if it contains `=`, split once, strip the key, and
when the key has no space and is an identifier, store the stripped value
and report `True`; otherwise report `False` and leave the table unchanged. -/
def handleVariableAssignment (vars : VarTable) (command : String) :
    Bool × VarTable :=
  if command.data.contains '=' then
    let parts := pySplitOn command '='
    let key := pyStrip (parts.headD "")
    let value := String.intercalate "=" parts.tail
    if !(key.data.contains ' ') && pyIsIdentifier key then
      (true, varSet vars key (pyStrip value))
    else
      (false, vars)
  else
    (false, vars)

/-- The scanner behind `re.sub(r"\$([a-zA-Z_][a-zA-Z0-9_]*|[?!$])", ...)`
in `Shell.expand_variables`: at each `$`, greedily match an identifier or
one of `?` `!` `$`, replacing a match with the table value (missing name →
empty string); a `$` that starts no match is kept and scanning resumes at
the next character. -/
def expandVarsChars (vars : VarTable) : Nat → List Char → List Char
  | _, [] => []
  | 0, _ :: _ => []
  | fuel + 1, '$' :: rest =>
    match rest with
    | [] => ['$']
    | c :: rest2 =>
      if isIdentStart c then
        ((varGet vars ⟨c :: rest2.takeWhile isIdentCont⟩).getD "").data ++
          expandVarsChars vars fuel (rest2.dropWhile isIdentCont)
      else if c == '?' || c == '!' || c == '$' then
        ((varGet vars ⟨[c]⟩).getD "").data ++ expandVarsChars vars fuel rest2
      else
        '$' :: expandVarsChars vars fuel (c :: rest2)
  | fuel + 1, ch :: rest => ch :: expandVarsChars vars fuel rest

/-- `Shell.expand_variables` on one string. The scanner consumes at least
one input character per step, so `s.data.length` steps of fuel always
carry it to the end of the string. -/
def expandVarsStr (vars : VarTable) (s : String) : String :=
  ⟨expandVarsChars vars s.data.length s.data⟩

/-- `Shell.expand_variables` over an argument list: substitution nodes are
passed through untouched, literal strings are expanded. -/
def expandVariables (vars : VarTable) (args : List Arg) : List Arg :=
  args.map fun a =>
    match a with
    | .subst x => .subst x
    | .literal s => .literal (expandVarsStr vars s)

/-- `Shell.expand_command_substitutions` (`shellhost_shell.py`). `capture`
abstracts the IO-bound part of the loop body: allocating the capture
`JobIO`, overwriting the inner AST's last stage stdout with it, recursively
executing the inner AST, `communicate()`, draining the buffer, and decoding
bytes — it returns the decoded captured text of the inner AST. The code then
applies `str.strip()` to that text and substitutes the result in argument
position; literal arguments pass through unchanged. -/
def expandCommandSubstitutions (capture : List Node → String) (args : List Arg) :
    List String :=
  args.map fun a =>
    match a with
    | .subst ast => pyStrip (capture ast)
    | .literal s => s

/-! ## Command registry and argument binder (shellhost_command.py) -/

/-- Python dict lookup (generic value type). -/
def dictGet {α : Type} (l : List (String × α)) (k : String) : Option α :=
  (l.find? (fun p => p.1 == k)).map (fun p => p.2)

/-- Python dict store: an existing key keeps its position, a new key is
appended. -/
def dictSet {α : Type} (l : List (String × α)) (k : String) (v : α) :
    List (String × α) :=
  match l with
  | [] => [(k, v)]
  | (k0, v0) :: rest => if k0 == k then (k, v) :: rest else (k0, v0) :: dictSet rest k v

/-- A `nargs` value: a concrete count or the `'*'` marker. -/
inductive NArg where
  | num (n : Nat)
  | star
deriving DecidableEq, Repr

/-- A `dtype`: the conversions appearing in the sources (`str`, `bool`);
`add_arg` compares `dtype == bool`. -/
inductive DType where
  | str
  | bool
deriving DecidableEq, Repr

/-- A Python value bound to an argument: the literal `True` for boolean
switches, a bare token string (the `nargs == 1` branch), or a token list
(every other valued branch). -/
inductive PyVal where
  | bool (b : Bool)
  | str (s : String)
  | list (l : List String)
deriving DecidableEq, Repr

/-- The argument record `add_arg` builds (the Python `this_arg` dict). -/
structure ParamSpec where
  type_ : String
  original_name : String
  formatted_name : String
  dtype : Option DType
  nargs : Option NArg
  default : Option String
  is_bool : Bool
  sig_name : Option String
deriving DecidableEq, Repr

instance : Inhabited ParamSpec := ⟨⟨"", "", "", none, none, none, false, none⟩⟩

/-- A `Command` (`shellhost_command.py`). The two dicts map spellings to
indices into the shared `specs` store; every spelling produced by one
`add_arg` call maps to the same index, which models the Python aliasing of
one `this_arg` dict object under several keys. Mutating `specs` at an index
is visible through every spelling, exactly as in Python. -/
structure Command where
  name : String
  positional : List (String × Nat)
  optional : List (String × Nat)
  specs : List ParamSpec
deriving DecidableEq, Repr

/-- `Command.__init__`: empty argument dicts (registration with the
`shell_core` C extension is out of scope). -/
def emptyCommand (name : String) : Command := ⟨name, [], [], []⟩

/-- `name_parts_original[i].lstrip('-').replace('-','_')`. -/
def formatPart (s : String) : String :=
  ⟨(s.data.dropWhile (fun c => c == '-')).map (fun c => if c == '-' then '_' else c)⟩

/-- `name_lengths.index(max(name_lengths))`: the first part of maximal
length. -/
def firstLongest (parts : List String) : String :=
  match parts with
  | [] => ""
  | p :: rest => rest.foldl (fun acc q => if q.length > acc.length then q else acc) p

/-- `Command.add_arg` (`shellhost_command.py`). The `TypeError` branch for
a non-string name is unrepresentable in the typed embedding; the two
`ValueError`s are `.error`. Argument order: `nargs`, `dtype`, `default`,
`sig_name`, `is_bool`. -/
def addArg (c : Command) (name : String) (nargs : Option NArg)
    (dtype : Option DType) (default : Option String) (sigName : Option String)
    (isBool : Bool) : Except String Command :=
  if name.isEmpty then
    .error "IndexError: string index out of range"
  else
    let isBool := isBool || dtype == some .bool
    if name.data.headD ' ' == '-' then
      if isBool && !(nargs == none || nargs == some (.num 0)) then
        .error "Cannot accept values for a boolean argument."
      else if !isBool && nargs == some (.num 0) then
        .error "Cannot add non-boolean optional argument with nargs 0."
      else
        let nargs2 : Option NArg :=
          if isBool then some (.num 0)
          else if nargs == none then some (.num 1)
          else nargs
        let parts := pySplitOn name '|'
        let fname := firstLongest (parts.map formatPart)
        let spec : ParamSpec :=
          ⟨"Optional", name, fname, dtype, nargs2, default, isBool, sigName⟩
        .ok { c with specs := c.specs ++ [spec],
                     optional :=
                       parts.foldl (fun m part => dictSet m part c.specs.length)
                         c.optional }
    else
      let spec : ParamSpec := ⟨"Positional", name, name, dtype, nargs, default, isBool, sigName⟩
      .ok { c with specs := c.specs ++ [spec],
                   positional := dictSet c.positional name c.specs.length }

/-- `dtype(arg_val)` for the modelled dtypes; `str` and `bool` never
raise. -/
def applyDType : Option DType → String → Except String PyVal
  | none, s => .ok (.str s)
  | some .str, s => .ok (.str s)
  | some .bool, s => .ok (.bool (!s.isEmpty))

/-- Python errors the binder can raise. Message texts are abbreviated,
only the exception kind and trigger point are modelled. -/
inductive PyErr where
  | parsingError (msg : String)
  | typeError (msg : String)
  | indexError
deriving DecidableEq, Repr

/-- The positional loop of `Command.parse`: iterate the positional specs in
declaration order; a `'*'` spec takes every remaining token (no dtype
applied) and stops; otherwise pop one token (failure → `ParsingError`) and
apply the dtype. Returns the positional values and the remaining tokens. -/
def parsePos (specs : List ParamSpec) (cli : List String) :
    Except PyErr (List PyVal × List String) :=
  match specs with
  | [] => .ok ([], cli)
  | spec :: rest =>
    if spec.nargs == some .star then
      .ok (cli.map .str, [])
    else
      match cli with
      | [] => .error (.parsingError "pop from empty list | not enough arguments")
      | v :: cliRest =>
        match applyDType spec.dtype v with
        | .error e => .error (.parsingError e)
        | .ok v2 =>
          match parsePos rest cliRest with
          | .error e => .error e
          | .ok r => .ok (v2 :: r.1, r.2)

/-- The `while i < len(cli_args)` optional loop of `Command.parse`. Each
token at the cursor must be a registered spelling (else `ParsingError`);
booleans bind `True` and advance one; `nargs == 1` binds the *bare* next
token (`IndexError` when absent); `nargs == '*'` first overwrites the
shared spec's `nargs` in place with `len(cli_args) - i` (the count of
tokens from the flag onward) and then, like any other count `n`, binds the
slice of the following `n` tokens and advances past it. Returns the bound
dict and the (possibly mutated) spec store. The cursor advances at least
one token per iteration, so fuel equal to the token count always carries
the loop to completion. -/
def parseOpts (omap : List (String × Nat)) :
    List ParamSpec → Nat → List String → List (String × PyVal) →
    Except PyErr (List (String × PyVal)) × List ParamSpec
  | specs, _, [], acc => (.ok acc, specs)
  | specs, 0, _ :: _, acc => (.ok acc, specs)
  | specs, fuel + 1, flag :: rest, acc =>
    match dictGet omap flag with
    | none => (.error (.parsingError ("Got unexpected optional argument: " ++ flag)), specs)
    | some i =>
      let spec := specs.getD i default
      if spec.is_bool then
        parseOpts omap specs fuel rest (dictSet acc spec.formatted_name (.bool true))
      else
        match spec.nargs with
        | some (.num n) =>
          if n = 1 then
            match rest with
            | [] => (.error .indexError, specs)
            | v :: rest2 =>
              parseOpts omap specs fuel rest2 (dictSet acc spec.formatted_name (.str v))
          else
            parseOpts omap specs fuel (rest.drop n)
              (dictSet acc spec.formatted_name (.list (rest.take n)))
        | some .star =>
          let k := rest.length + 1
          parseOpts omap (specs.set i { spec with nargs := some (.num k) }) fuel
            (rest.drop k) (dictSet acc spec.formatted_name (.list (rest.take k)))
        | none => (.error (.typeError "unsupported operand type"), specs)

/-- `Command.parse` (`shellhost_command.py`): `None` or empty input returns
the sentinel `(None, None)` before any spec is consumed; otherwise the
positional loop runs, then, only if tokens remain, the optional loop
(else the optionals component is `None`). The possibly mutated command is
returned alongside (in Python the mutation happens in place on `self`,
and persists even when the optional loop raises). -/
def Command.parse (c : Command) (cliArgs : Option (List String)) :
    Except PyErr (Option (List PyVal) × Option (List (String × PyVal))) × Command :=
  match cliArgs with
  | none => (.ok (none, none), c)
  | some cli =>
    if cli.isEmpty then
      (.ok (none, none), c)
    else
      match parsePos (c.positional.map (fun p => c.specs.getD p.2 default)) cli with
      | .error e => (.error e, c)
      | .ok (posArgs, cliRest) =>
        if cliRest.isEmpty then
          (.ok (some posArgs, none), c)
        else
          match parseOpts c.optional c.specs cliRest.length cliRest [] with
          | (.error e, specs2) => (.error e, { c with specs := specs2 })
          | (.ok optArgs, specs2) =>
            (.ok (some posArgs, some optArgs), { c with specs := specs2 })

/-- Errors `Command.__call__` can surface before the wrapped callable
runs. -/
inductive CallErr where
  | indexError
  | parsing (e : PyErr)
deriving DecidableEq, Repr

/-- The invocation `Command.__call__` hands to the wrapped callable:
`self.func(*pos, **kw)`. -/
structure FuncCall where
  pos : List PyVal
  kw : List (String × PyVal)
deriving DecidableEq, Repr

/-- `Command.__call__` (`shellhost_command.py`): `this_command = args[0]`
drops the first element (IndexError on an empty call), the remainder goes
to `parse`, and the four `None`-pattern branches choose how the callable
is invoked. The callable's own execution (and its `ArgumentError`
wrapping) is beyond the invocation boundary modelled here. -/
def commandCall (c : Command) (args : List String) :
    Except CallErr FuncCall × Command :=
  match args with
  | [] => (.error .indexError, c)
  | _ :: rest =>
    match c.parse (some rest) with
    | (.error e, c2) => (.error (.parsing e), c2)
    | (.ok (p, o), c2) =>
      match p, o with
      | some pv, some ov => (.ok ⟨pv, ov⟩, c2)
      | some pv, none => (.ok ⟨pv, []⟩, c2)
      | none, some ov => (.ok ⟨[], ov⟩, c2)
      | none, none => (.ok ⟨[], []⟩, c2)

/-- The command of claim C7: one positional `name`, a boolean flag pair
`-b|--bool`, and a valued flag pair `-k|--kwarg` of default arity 1
(`nargs=None` becomes 1 in `add_arg`). -/
def greetCmdE : Except String Command := do
  let c1 ← addArg (emptyCommand "greet") "name" none none none none false
  let c2 ← addArg c1 "-b|--bool" none none none none true
  addArg c2 "-k|--kwarg" none none none none false

/-- The command of claim C7, extracted (the three `add_arg` calls all
succeed, so the fallback is unreachable). -/
def greetCmd : Command :=
  match greetCmdE with
  | .ok c => c
  | .error _ => emptyCommand "greet"

/-- A command with one `'*'`-arity non-boolean optional flag pair
`-m|--many`, exercising the in-place arity overwrite of claim C10 (the
`add_arg` call succeeds, so the fallback is unreachable). -/
def manyCmd : Command :=
  match addArg (emptyCommand "collect") "-m|--many" (some .star) none none none false with
  | .ok c => c
  | .error _ => emptyCommand "collect"

/-! ## Executor (`Shell.execute_ast`, shellhost_shell.py) -/

/-- A dispatched job: `Job(func, args=current_args[1:], stdin=..., ...)`
for a registry hit, or `subprocess.Popen(current_args, ...)` for an
external command (the `JobIO`-to-fd unwrapping and parent-side fd close are
resource management without observable effect in this model). -/
inductive ShellJob where
  | thread (name : String) (args : List String) (stdin stdout stderr : StreamDest)
  | process (args : List String) (stdin stdout stderr : StreamDest)
deriving DecidableEq, Repr

/-- Observable outcome of `Shell.execute_ast`: the returned job (`None` or
the last one assigned to `this_job`), the variable table, the lines written
with `print` (the process's standard output), and every job dispatched, in
order. -/
structure ExecResult where
  job : Option ShellJob
  vars : VarTable
  output : List String
  spawned : List ShellJob
deriving Repr

/-- The `for node in nodes` loop of `Shell.execute_ast`, carrying the
accumulated print output, dispatched jobs and current `this_job`. Python
errors that would escape (indexing an empty argument list; the `in` test on
a substitution node) are `Except.error`. `reg` is the name set of
`self.commands`; `ext` tells whether `subprocess.Popen` resolves an
executable name (`False` → `FileNotFoundError`); `capture` is as in
`expandCommandSubstitutions`. -/
def execLoop (reg : List String) (ext : String → Bool) (capture : List Node → String) :
    Nat → List Node → Option StreamDest → Option StreamDest → Option StreamDest →
    VarTable → List String → List ShellJob → Option ShellJob →
    Except String ExecResult
  | _, [], _, _, _, vars, out, spawned, thisJob => .ok ⟨thisJob, vars, out, spawned⟩
  | 0, _ :: _, _, _, _, _, _, _, _ =>
    .error "recursion exceeds fuel"
  | fuel + 1, node :: rest, stdin?, stdout?, stderr?, vars, out, spawned, _ =>
    match node with
    | .cmd args nstdin nstdout nstderr =>
      match args with
      | [] => .error "IndexError: list index out of range"
      | .subst _ :: _ =>
        .error "TypeError: argument of type CommandSubstitutionNode is not iterable"
      | .literal a0 :: _ =>
        let hva := handleVariableAssignment vars a0
        if hva.1 then
          .ok ⟨none, hva.2, out, spawned⟩
        else
          let args2 := expandCommandSubstitutions capture (expandVariables vars args)
          let aStdin := stdin?.getD nstdin
          let aStdout := stdout?.getD nstdout
          let aStderr := stderr?.getD nstderr
          match args2 with
          | [] => .error "IndexError: list index out of range"
          | cmdName :: restArgs =>
            if cmdName ∈ reg then
              let job := ShellJob.thread cmdName restArgs aStdin aStdout aStderr
              execLoop reg ext capture fuel rest stdin? stdout? stderr? vars out
                (spawned ++ [job]) (some job)
            else if ext cmdName then
              let job := ShellJob.process (cmdName :: restArgs) aStdin aStdout aStderr
              execLoop reg ext capture fuel rest stdin? stdout? stderr? vars out
                (spawned ++ [job]) (some job)
            else
              .ok ⟨none, vars, out ++ ["Command not found: " ++ cmdName], spawned⟩
    | .subshell children _ _ _ =>
      match execLoop reg ext capture fuel children none none none vars [] [] none with
      | .error e => .error e
      | .ok res =>
        execLoop reg ext capture fuel rest stdin? stdout? stderr? res.vars
          (out ++ res.output) (spawned ++ res.spawned) res.job

/-- `Shell.execute_ast` (`shellhost_shell.py`): the loop started with empty
accumulators; an empty node list returns `None` immediately, which the loop
base case reproduces. `fuel` bounds the recursion through subshell children
(one unit per node processed), as for `buildAST` — every theorem
instantiates it strictly above the number of nodes of its input tree, where
Python's and the embedding's behaviours coincide. -/
def executeAst (fuel : Nat) (reg : List String) (ext : String → Bool)
    (capture : List Node → String) (nodes : List Node)
    (stdin? stdout? stderr? : Option StreamDest) (vars : VarTable) :
    Except String ExecResult :=
  execLoop reg ext capture fuel nodes stdin? stdout? stderr? vars [] [] none

/-! ## Job abstraction (`shellhost_io.py`) -/

/-- The observable state of a `Job`: whether its worker thread is still
alive (`self._thread.is_alive()`) and the recorded `returncode`
(`None` while unset; `_run_wrapper` records `0` on success and `1` when
the wrapped callable raises). -/
structure JobState where
  threadAlive : Bool
  returncode : Option Int
deriving DecidableEq, Repr

/-- `Job.poll` (`shellhost_io.py`): returns a value only when the thread is
no longer alive *and* no return code has been recorded (then it records and
returns `0`); every other path falls off the end of the method, returning
`None`. -/
def jobPoll (j : JobState) : Option Int × JobState :=
  if !j.threadAlive && j.returncode == none then
    (some 0, { j with returncode := some 0 })
  else
    (none, j)

/-! ## Helper lemmas -/

theorem updateLast_concat (f : Node → Node) (ns : List Node) (n : Node) :
    updateLast f (ns ++ [n]) = ns ++ [f n] := by
  induction ns with
  | nil => rfl
  | cons a tl ih =>
    cases tl with
    | nil => rfl
    | cons b tl2 => simpa [updateLast] using ih

theorem varGet_varSet_self (vars : VarTable) (k v : String) :
    varGet (varSet vars k v) k = some v := by
  induction vars with
  | nil => simp [varSet, varGet]
  | cons p rest ih =>
    by_cases h : p.1 == k
    · simp [varSet, varGet, h]
    · simpa [varSet, varGet, List.find?, h] using ih

theorem pyStripList_decomp (l : List Char) :
    ∃ pre post : List Char,
      l = pre ++ pyStripList l ++ post ∧
      (∀ c ∈ pre, isPySpace c = true) ∧ (∀ c ∈ post, isPySpace c = true) := by
  refine ⟨l.takeWhile isPySpace,
    ((l.dropWhile isPySpace).reverse.takeWhile isPySpace).reverse, ?_, ?_, ?_⟩
  · conv_lhs => rw [← List.takeWhile_append_dropWhile (p := isPySpace) (l := l)]
    have h2 : l.dropWhile isPySpace =
        ((l.dropWhile isPySpace).reverse.dropWhile isPySpace).reverse ++
          ((l.dropWhile isPySpace).reverse.takeWhile isPySpace).reverse := by
      rw [← List.reverse_append, List.takeWhile_append_dropWhile, List.reverse_reverse]
    rw [pyStripList, List.append_assoc]
    exact congrArg _ h2
  · intro c hc
    exact List.mem_takeWhile_imp hc
  · intro c hc
    rw [List.mem_reverse] at hc
    exact List.mem_takeWhile_imp hc

theorem plainWord_facts (t : String) (h : plainWord t = true) :
    t ≠ "(" ∧ t ≠ ")" ∧ t ≠ "|" ∧ t ≠ ">" ∧ t ≠ ">>" ∧ t ≠ "2>" ∧ t ≠ "<" ∧
    (strStartsWith t "$(" && strEndsWith t ")") = false := by
  simp only [plainWord, Bool.and_eq_true, Bool.not_eq_true', Bool.or_eq_false_iff,
    beq_eq_false_iff_ne, ne_eq] at h
  tauto

theorem parseArgument_plain (tokenize : String → List String)
    (recur : List String → Except String (List Node)) (t : String)
    (h : plainWord t = true) :
    parseArgument tokenize recur t = .ok (.literal t) := by
  have h8 := (plainWord_facts t h).2.2.2.2.2.2.2
  simp [parseArgument, h8]

theorem buildLoop_words (pa : String → Except String Arg)
    (hpa : ∀ t, plainWord t = true → pa t = .ok (.literal t))
    (ws : List String) (rest : List String) (ns : List Node) (args : List Arg)
    (i o e : StreamDest) (hws : ∀ t ∈ ws, plainWord t = true) :
    buildLoop pa ⟨[], ns ++ [.cmd args i o e], none⟩ (ws ++ rest) =
      buildLoop pa ⟨[], ns ++ [.cmd (args ++ ws.map Arg.literal) i o e], none⟩ rest := by
  induction ws generalizing args with
  | nil => simp only [List.nil_append, List.map_nil, List.append_nil]
  | cons w ws2 ih =>
    have hw : plainWord w = true := hws w (List.mem_cons_self w ws2)
    have hws2 : ∀ t ∈ ws2, plainWord t = true :=
      fun t ht => hws t (List.mem_cons_of_mem w ht)
    obtain ⟨h1, h2, h3, h4, h5, h6, h7, _⟩ := plainWord_facts w hw
    have step : buildLoop pa ⟨[], ns ++ [.cmd args i o e], none⟩ (w :: (ws2 ++ rest)) =
        buildLoop pa ⟨[], ns ++ [.cmd (args ++ [.literal w]) i o e], none⟩ (ws2 ++ rest) := by
      rw [buildLoop.eq_def]
      simp [h1, h2, h3, h4, h5, h6, h7, hpa w hw, Except.bind, wordStep,
        List.getLast?_concat, Node.isSubshell, updateLast_concat, Node.appendArg]
    calc buildLoop pa ⟨[], ns ++ [.cmd args i o e], none⟩ ((w :: ws2) ++ rest)
        = buildLoop pa ⟨[], ns ++ [.cmd (args ++ [.literal w]) i o e], none⟩ (ws2 ++ rest) :=
          step
      _ = buildLoop pa ⟨[], ns ++ [.cmd (args ++ (w :: ws2).map Arg.literal) i o e], none⟩
            rest := by rw [ih (args ++ [Arg.literal w]) hws2]; simp

theorem buildLoop_pipeline (pa : String → Except String Arg)
    (hpa : ∀ t, plainWord t = true → pa t = .ok (.literal t))
    (stages : List (List String)) (ns : List Node) (p : Option StreamDest)
    (h1 : stages ≠ []) (h2 : ∀ s ∈ stages, s ≠ [])
    (h3 : ∀ s ∈ stages, ∀ t ∈ s, plainWord t = true)
    (hstart : ns = [] ∨ p.isSome = true) :
    buildLoop pa ⟨[], ns, p⟩ (joinPipes stages) =
      .ok ⟨[], ns ++ chainFrom (p.getD .inheritStdin) stages, none⟩ := by
  induction stages generalizing ns p with
  | nil => exact absurd rfl h1
  | cons s rest ih =>
    obtain ⟨w, ws, rfl⟩ : ∃ w ws, s = w :: ws := by
      cases hs : s with
      | nil => exact absurd hs (h2 s (List.mem_cons_self s rest))
      | cons w ws => exact ⟨w, ws, rfl⟩
    have hw : plainWord w = true :=
      h3 _ (List.mem_cons_self _ rest) w (List.mem_cons_self w ws)
    have hws : ∀ t ∈ ws, plainWord t = true :=
      fun t ht => h3 _ (List.mem_cons_self _ rest) t (List.mem_cons_of_mem w ht)
    obtain ⟨g1, g2, g3, g4, g5, g6, g7, _⟩ := plainWord_facts w hw
    have startStep : ∀ cont : List String,
        buildLoop pa ⟨[], ns, p⟩ (w :: cont) =
        buildLoop pa
          ⟨[], ns ++ [.cmd [.literal w] (p.getD .inheritStdin) .inheritStdout .inheritStderr],
           none⟩ cont := by
      intro cont
      rcases hstart with hns | hp
      · subst hns
        cases p with
        | none =>
          rw [buildLoop.eq_def]
          simp [g1, g2, g3, g4, g5, g6, g7, hpa w hw, Except.bind, wordStep]
        | some d =>
          rw [buildLoop.eq_def]
          simp [g1, g2, g3, g4, g5, g6, g7, hpa w hw, Except.bind, wordStep]
      · obtain ⟨d, rfl⟩ := Option.isSome_iff_exists.mp hp
        rw [buildLoop.eq_def]
        simp [g1, g2, g3, g4, g5, g6, g7, hpa w hw, Except.bind, wordStep]
    cases rest with
    | nil =>
      have hjoin : joinPipes [w :: ws] = w :: (ws ++ []) := by simp [joinPipes]
      rw [hjoin, startStep (ws ++ []),
        buildLoop_words pa hpa ws [] ns [.literal w] (p.getD .inheritStdin)
          .inheritStdout .inheritStderr hws]
      simp [buildLoop, chainFrom]
    | cons s2 rest2 =>
      have hjoin : joinPipes ((w :: ws) :: s2 :: rest2) =
          w :: (ws ++ ("|" :: joinPipes (s2 :: rest2))) := by simp [joinPipes]
      rw [hjoin, startStep (ws ++ ("|" :: joinPipes (s2 :: rest2))),
        buildLoop_words pa hpa ws ("|" :: joinPipes (s2 :: rest2)) ns [.literal w]
          (p.getD .inheritStdin) .inheritStdout .inheritStderr hws]
      have pipeStep : buildLoop pa
          ⟨[], ns ++ [.cmd (.literal w :: ws.map Arg.literal)
            (p.getD .inheritStdin) .inheritStdout .inheritStderr], none⟩
          ("|" :: joinPipes (s2 :: rest2)) =
          buildLoop pa
            ⟨[], ns ++ [.cmd (.literal w :: ws.map Arg.literal)
              (p.getD .inheritStdin) .pipeOutMarker .inheritStderr],
             some .pipeInMarker⟩ (joinPipes (s2 :: rest2)) := by
        rw [buildLoop.eq_def]
        simp [pipeScope, updateLast_concat, Node.setStdout]
      rw [show ([Arg.literal w] ++ ws.map Arg.literal) =
        (.literal w :: ws.map Arg.literal) from rfl, pipeStep]
      have h2r : ∀ t ∈ s2 :: rest2, t ≠ [] :=
        fun t ht => h2 t (List.mem_cons_of_mem _ ht)
      have h3r : ∀ t ∈ s2 :: rest2, ∀ u ∈ t, plainWord u = true :=
        fun t ht => h3 t (List.mem_cons_of_mem _ ht)
      rw [ih (ns ++ [Node.cmd (Arg.literal w :: ws.map Arg.literal)
            (p.getD StreamDest.inheritStdin) StreamDest.pipeOutMarker
            StreamDest.inheritStderr])
          (some StreamDest.pipeInMarker) (List.cons_ne_nil s2 rest2) h2r h3r
          (Or.inr rfl)]
      simp [chainFrom]

theorem linkAdjGo_chain (stages : List (List String)) (s : List String)
    (d : StreamDest) (c : Nat) :
    linkAdjGo (.cmd (s.map Arg.literal) d
        (if stages.isEmpty then .inheritStdout else .pipeOutMarker) .inheritStderr)
      (chainFrom .pipeInMarker stages) c =
      (linkedChain d c (s :: stages), c + stages.length) := by
  induction stages generalizing s d c with
  | nil => simp [chainFrom, linkAdjGo, linkedChain]
  | cons s2 rest2 ih =>
    rw [show chainFrom .pipeInMarker (s2 :: rest2) =
      Node.cmd (s2.map Arg.literal) .pipeInMarker
        (if rest2.isEmpty then .inheritStdout else .pipeOutMarker) .inheritStderr ::
      chainFrom .pipeInMarker rest2 from rfl]
    rw [linkAdjGo.eq_def]
    simp only [List.isEmpty_cons, Bool.false_eq_true, if_false, Node.stdoutOf,
      Node.stdinOf, and_self, if_true, Node.setStdin, Node.setStdout]
    rw [ih s2 (.pipe c) (c + 1)]
    simp only [linkedChain, List.isEmpty_cons, Bool.false_eq_true, if_false,
      Prod.mk.injEq, List.length_cons]
    exact ⟨trivial, by omega⟩

theorem linkAdj_chain (stages : List (List String)) (d : StreamDest) (c : Nat) :
    linkAdj (chainFrom d stages) c = (linkedChain d c stages, c + (stages.length - 1)) := by
  cases stages with
  | nil => simp [chainFrom, linkAdj, linkedChain]
  | cons s rest =>
    simp only [chainFrom, linkAdj]
    rw [linkAdjGo_chain rest s d c]
    simp

theorem linkedChain_all_cmd (stages : List (List String)) (d : StreamDest) (c : Nat) :
    ∀ n ∈ linkedChain d c stages, n.isSubshell = false := by
  induction stages generalizing d c with
  | nil => intro n hn; simp [linkedChain] at hn
  | cons s rest ih =>
    intro n hn
    simp only [linkedChain, List.mem_cons] at hn
    rcases hn with rfl | hn
    · rfl
    · exact ih (.pipe c) (c + 1) n hn

theorem linkSubs_all_cmd (recur : List Node → Nat → List Node × Nat)
    (l : List Node) (c : Nat) (h : ∀ n ∈ l, n.isSubshell = false) :
    linkSubs recur l c = (l, c) := by
  induction l generalizing c with
  | nil => rfl
  | cons n rest ih =>
    have hn := h n (List.mem_cons_self n rest)
    have hrest : ∀ m ∈ rest, m.isSubshell = false :=
      fun m hm => h m (List.mem_cons_of_mem n hm)
    cases n with
    | subshell ch i o e => simp [Node.isSubshell] at hn
    | cmd args i o e => simp [linkSubs, ih c hrest]

theorem linkPipes_chain (stages : List (List String)) (d : StreamDest) (c : Nat) :
    linkPipes 1 (chainFrom d stages) c =
      (linkedChain d c stages, c + (stages.length - 1)) := by
  show linkSubs (linkPipes 0) (linkAdj (chainFrom d stages) c).1
      (linkAdj (chainFrom d stages) c).2 = _
  rw [linkAdj_chain]
  exact linkSubs_all_cmd _ _ _ (linkedChain_all_cmd stages d c)

theorem joinPipes_count (stages : List (List String)) (h1 : stages ≠ [])
    (h3 : ∀ s ∈ stages, ∀ t ∈ s, plainWord t = true) :
    (joinPipes stages).count "|" = stages.length - 1 := by
  induction stages with
  | nil => exact absurd rfl h1
  | cons s rest ih =>
    have hs : ∀ t ∈ s, plainWord t = true := h3 s (List.mem_cons_self s rest)
    have hzero : s.count "|" = 0 := by
      rw [List.count_eq_zero]
      intro hmem
      exact (plainWord_facts _ (hs _ hmem)).2.2.1 rfl
    cases rest with
    | nil => simpa [joinPipes] using hzero
    | cons s2 rest2 =>
      have h3r : ∀ t ∈ s2 :: rest2, ∀ u ∈ t, plainWord u = true :=
        fun t ht => h3 t (List.mem_cons_of_mem _ ht)
      have := ih (List.cons_ne_nil s2 rest2) h3r
      simp [joinPipes, List.count_append, List.count_cons, hzero, this]

theorem linkedChain_adjacent (stages : List (List String)) (d : StreamDest)
    (c : Nat) (i : Nat) (h : i + 1 < stages.length) :
    ∃ a b, (linkedChain d c stages)[i]? = some a ∧
      (linkedChain d c stages)[i + 1]? = some b ∧
      a.stdoutOf = .pipe (c + i) ∧ b.stdinOf = .pipe (c + i) := by
  induction stages generalizing d c i with
  | nil => simp at h
  | cons s rest ih =>
    cases i with
    | zero =>
      obtain ⟨s2, rest2, rfl⟩ : ∃ s2 rest2, rest = s2 :: rest2 := by
        cases rest with
        | nil => simp at h
        | cons s2 rest2 => exact ⟨s2, rest2, rfl⟩
      refine ⟨.cmd (s.map Arg.literal) d (.pipe c) .inheritStderr,
        .cmd (s2.map Arg.literal) (.pipe c)
          (if rest2.isEmpty then .inheritStdout else .pipe (c + 1)) .inheritStderr,
        ?_, ?_, rfl, rfl⟩
      · simp [linkedChain]
      · simp [linkedChain]
    | succ j =>
      have hj : j + 1 < rest.length := by
        simpa [Nat.succ_lt_succ_iff] using h
      obtain ⟨a, b, ha, hb, hao, hbi⟩ := ih (.pipe c) (c + 1) j hj
      refine ⟨a, b, ?_, ?_, ?_, ?_⟩
      · simpa [linkedChain] using ha
      · simpa [linkedChain] using hb
      · rw [hao]; congr 1; omega
      · rw [hbi]; congr 1; omega

/-! ## Claim theorems -/

/-- C6 (code bug): the builder's redirection branch tests membership in
`('>', '>>', '2>', '<')`, which omits `2>>`, and the word branch's
exclusion tuple omits it too, so on `cmd 2>> log` the tokens `2>>` and
`log` are appended as word arguments and stderr is left untouched — even
though the source carries a dedicated (unreachable) `elif token == '2>>'`
arm that would open the target in append mode. For contrast, `2>` behaves
structurally. -/
theorem C6_appendStderr_token_is_word :
    buildAST noTokenize 1 ["cmd", "2>>", "log"] =
      .ok [.cmd [.literal "cmd", .literal "2>>", .literal "log"]
        .inheritStdin .inheritStdout .inheritStderr] ∧
    buildAST noTokenize 1 ["cmd", "2>", "log"] =
      .ok [.cmd [.literal "cmd"]
        .inheritStdin .inheritStdout (.file "log" "w")] :=
  ⟨rfl, rfl⟩

/-- C8 (code bug): `Job.poll` on a finished job whose return code is
already recorded (the state `_run_wrapper` always leaves behind) returns
`None` instead of the recorded result; the only state in which `poll`
returns anything is a finished job with *no* recorded return code. -/
theorem C8_poll_ignores_recorded_result :
    jobPoll ⟨false, some 0⟩ = (none, ⟨false, some 0⟩) ∧
    jobPoll ⟨false, some 1⟩ = (none, ⟨false, some 1⟩) ∧
    jobPoll ⟨false, none⟩ = (some 0, ⟨false, some 0⟩) :=
  ⟨rfl, rfl, rfl⟩

/-- C7 (counterexample): binding `["alice","-b","-k","x"]` against the
claimed command binds `kwarg` to the bare string `"x"`, not to the
one-element list `["x"]` the claim states. -/
theorem C7_counterexample :
    ∃ o, (greetCmd.parse (some ["alice", "-b", "-k", "x"])).1 =
        .ok (some [.str "alice"], some o) ∧
      dictGet o "kwarg" = some (.str "x") ∧
      dictGet o "kwarg" ≠ some (.list ["x"]) :=
  ⟨[("bool", .bool true), ("kwarg", .str "x")], rfl, rfl, by decide⟩

/-- C7 (amended): binding `["alice","-b","-k","x"]` yields positional
values `["alice"]` and the optional map `{bool: true, kwarg: "x"}` — the
arity-1 valued option binds the bare following token, not a one-element
list — and leaves the command's declared schema unchanged. -/
theorem C7_amended_arity_one_binds_bare_token :
    greetCmd.parse (some ["alice", "-b", "-k", "x"]) =
      (.ok (some [.str "alice"],
        some [("bool", .bool true), ("kwarg", .str "x")]), greetCmd) :=
  rfl

/-- C9 (counterexample): invoking a registered command with an empty
argument list raises `IndexError` inside `__call__` (at
`this_command = args[0]`), before `parse` is ever reached and without the
callable being invoked — here on a command that declares a required
positional. -/
theorem C9_counterexample :
    commandCall greetCmd [] = (.error .indexError, greetCmd) ∧
    greetCmd.positional = [("name", 0)] :=
  ⟨rfl, rfl⟩

/-- C9 (amended): `__call__` silently drops its first argument, so it is a
*one*-element invocation that exercises the sentinel path: `parse`
receives the empty list and returns `(None, None)` without consuming any
`ParamSpec`, and the callable is invoked with zero positional and zero
keyword arguments — for every command, even one declaring required
fixed-arity positionals; a zero-element invocation instead raises
`IndexError`. -/
theorem C9_amended_empty_call (c : Command) (a : String) :
    commandCall c [a] = (.ok ⟨[], []⟩, c) ∧
    commandCall c [] = (.error .indexError, c) := by
  constructor
  · simp [commandCall, Command.parse]
  · rfl

/-- C2 (counterexample): a command substitution whose captured output is
`" hi"` substitutes `"hi"` — the leading whitespace is *not* preserved,
refuting "trimming only trailing whitespace". -/
theorem C2_counterexample :
    expandCommandSubstitutions (fun _ => " hi") [.subst []] = ["hi"] ∧
    (" hi" : String) ≠ "hi" :=
  ⟨rfl, by decide⟩

/-- C2 (amended): every `Substitution` argument is replaced, in argument
position, by Python `str.strip()` of the captured text — trimming both
leading and trailing whitespace; the trimmed result is a contiguous
infix of the captured text, so embedded whitespace (newlines included) is
preserved; the captured output `"hi\n"` of `$(echo hi)` resolves to the
literal `"hi"`. -/
theorem C2_amended_substitution_strips_both_ends :
    (∀ (capture : List Node → String) (args : List Arg),
        expandCommandSubstitutions capture args =
          args.map (fun a =>
            match a with
            | .subst ast => pyStrip (capture ast)
            | .literal s => s)) ∧
    (∀ s : String, ∃ pre post : List Char,
        s.data = pre ++ (pyStrip s).data ++ post ∧
        (∀ c ∈ pre, isPySpace c = true) ∧ (∀ c ∈ post, isPySpace c = true)) ∧
    pyStrip "hi\n" = "hi" ∧
    pyStrip "a\nb" = "a\nb" ∧
    expandCommandSubstitutions (fun _ => "hi\n") [.subst []] = ["hi"] := by
  refine ⟨fun capture args => rfl, fun s => ?_, by decide, by decide, rfl⟩
  simpa [pyStrip] using pyStripList_decomp s.data

/-- C3 (counterexample): with `A = "X=1"` in the table, the node `$A` has a
first argument that *after variable expansion* matches `NAME=value` (the
code's own assignment test accepts the expanded string), yet executing it
stores nothing — `X` stays unbound — and instead reports a failed command
lookup for `X=1`: the assignment test runs on the raw argument, before
expansion. -/
theorem C3_counterexample :
    expandVarsStr [("A", "X=1")] "$A" = "X=1" ∧
    (handleVariableAssignment [("A", "X=1")] "X=1").1 = true ∧
    executeAst 9 [] (fun _ => false) (fun _ => "")
        [.cmd [.literal "$A"] .inheritStdin .inheritStdout .inheritStderr]
        none none none [("A", "X=1")] =
      .ok ⟨none, [("A", "X=1")], ["Command not found: X=1"], []⟩ ∧
    varGet [("A", "X=1")] "X" = none :=
  ⟨rfl, rfl, rfl, rfl⟩

/-- C3 (amended): for every Command node whose *raw* first argument —
before variable expansion — passes the `NAME=value` assignment test,
execution stores the binding (key and value whitespace-stripped) in the
variable table and produces no job, stopping the current node list there;
in particular `FOO=bar` produces no job and a later `$FOO` expands to
`bar`. -/
theorem C3_amended_assignment_on_raw_argument
    (reg : List String) (ext : String → Bool) (capture : List Node → String)
    (fuel : Nat) (vars : VarTable) (s : String) (args : List Arg)
    (i o e : StreamDest) (nodes2 : List Node) (si so se : Option StreamDest)
    (h : (handleVariableAssignment vars s).1 = true) :
    executeAst (fuel + 1) reg ext capture
        (.cmd (.literal s :: args) i o e :: nodes2) si so se vars =
      .ok ⟨none, (handleVariableAssignment vars s).2, [], []⟩ ∧
    executeAst (fuel + 1) reg ext capture
        [.cmd [.literal "FOO=bar"] .inheritStdin .inheritStdout .inheritStderr]
        si so se vars =
      .ok ⟨none, varSet vars "FOO" "bar", [], []⟩ ∧
    expandVarsStr (varSet vars "FOO" "bar") "$FOO" = "bar" := by
  refine ⟨?_, ?_, ?_⟩
  · simp [executeAst, execLoop, h]
  · have hfb : handleVariableAssignment vars "FOO=bar" = (true, varSet vars "FOO" "bar") := rfl
    simp [executeAst, execLoop, hfb]
  · have key := varGet_varSet_self vars "FOO" "bar"
    show (⟨((varGet (varSet vars "FOO" "bar") "FOO").getD "").data ++
      expandVarsChars (varSet vars "FOO" "bar") 3 []⟩ : String) = "bar"
    rw [key]
    rfl

/-- C3 (witness): the amended theorem at the concrete line `FOO=bar` in an
empty table. -/
theorem C3_amended_assignment_on_raw_argument_witness :
    executeAst 1 [] (fun _ => false) (fun _ => "")
        [.cmd [.literal "FOO=bar"] .inheritStdin .inheritStdout .inheritStderr]
        none none none [] =
      .ok ⟨none, [("FOO", "bar")], [], []⟩ ∧
    expandVarsStr [("FOO", "bar")] "$FOO" = "bar" := by
  have h := C3_amended_assignment_on_raw_argument [] (fun _ => false) (fun _ => "")
    0 [] "FOO=bar" [] .inheritStdin .inheritStdout .inheritStderr []
    none none none rfl
  exact ⟨h.1, h.2.2⟩

/-- C4 (counterexample): with registry `{ok}` and no resolvable externals,
the line `missing ; ok` (two command nodes) stops at the failed lookup: the
message goes to standard output (`print`), the loop `return`s, and the
second node is never dispatched — no job list entry exists for it, whereas
executing the second node alone does produce a job. -/
theorem C4_counterexample :
    executeAst 9 ["ok"] (fun _ => false) (fun _ => "")
        [.cmd [.literal "missing"] .inheritStdin .inheritStdout .inheritStderr,
         .cmd [.literal "ok"] .inheritStdin .inheritStdout .inheritStderr]
        none none none [] =
      .ok ⟨none, [], ["Command not found: missing"], []⟩ ∧
    executeAst 9 ["ok"] (fun _ => false) (fun _ => "")
        [.cmd [.literal "ok"] .inheritStdin .inheritStdout .inheritStderr]
        none none none [] =
      .ok ⟨some (.thread "ok" [] .inheritStdin .inheritStdout .inheritStderr), [],
        [], [.thread "ok" [] .inheritStdin .inheritStdout .inheritStderr]⟩ :=
  ⟨rfl, rfl⟩

/-- C4 (amended): when a Command node's expanded name is neither in the
registry nor resolvable as an external executable, the executor prints
`Command not found: <name>` on the *standard output* stream and returns
`None`, *stopping* the remaining nodes of the current line (no job is
produced for any of them); the session's main loop is unaffected. -/
theorem C4_amended_not_found_stops_line
    (reg : List String) (ext : String → Bool) (capture : List Node → String)
    (fuel : Nat) (vars : VarTable) (s : String) (args : List Arg)
    (i o e : StreamDest) (nodes2 : List Node) (si so se : Option StreamDest)
    (h1 : (handleVariableAssignment vars s).1 = false)
    (h2 : expandVarsStr vars s ∉ reg)
    (h3 : ext (expandVarsStr vars s) = false) :
    executeAst (fuel + 1) reg ext capture
        (.cmd (.literal s :: args) i o e :: nodes2) si so se vars =
      .ok ⟨none, vars, ["Command not found: " ++ expandVarsStr vars s], []⟩ := by
  simp [executeAst, execLoop, h1, h2, h3, expandVariables, expandCommandSubstitutions]

/-- C4 (witness): the amended theorem at the concrete name `missing` with
registry `{ok}`. -/
theorem C4_amended_not_found_stops_line_witness :
    executeAst 1 ["ok"] (fun _ => false) (fun _ => "")
        [.cmd [.literal "missing"] .inheritStdin .inheritStdout .inheritStderr]
        none none none [] =
      .ok ⟨none, [], ["Command not found: missing"], []⟩ := by
  have h := C4_amended_not_found_stops_line ["ok"] (fun _ => false) (fun _ => "")
    0 [] "missing" [] .inheritStdin .inheritStdout .inheritStderr []
    none none none rfl (by decide) rfl
  exact h

/-- C5 (counterexample): a subshell whose own stdout is the file
destination `out` runs its child with *no* overrides — the resulting job
carries the child's inherited stdout, not the subshell's file — refuting
"with the subshell's own resolved streams passed down as overrides". -/
theorem C5_counterexample :
    executeAst 9 ["x"] (fun _ => false) (fun _ => "")
        [.subshell [.cmd [.literal "x"] .inheritStdin .inheritStdout .inheritStderr]
          .inheritStdin (.file "out" "w") .inheritStderr]
        none none none [] =
      .ok ⟨some (.thread "x" [] .inheritStdin .inheritStdout .inheritStderr), [], [],
        [.thread "x" [] .inheritStdin .inheritStdout .inheritStderr]⟩ ∧
    StreamDest.inheritStdout ≠ .file "out" "w" :=
  ⟨rfl, by decide⟩

/-- C5 (amended): for every Subshell node, the executor executes the
children with *no* stream overrides — both the caller's overrides and the
subshell's own stdin/stdout/stderr are ignored — and the subshell's result
is exactly the result of executing its children (in particular its job is
the last child's job). -/
theorem C5_amended_subshell_ignores_streams
    (fuel : Nat) (reg : List String) (ext : String → Bool)
    (capture : List Node → String) (children : List Node)
    (i o e : StreamDest) (si so se : Option StreamDest) (vars : VarTable) :
    executeAst (fuel + 1) reg ext capture [.subshell children i o e] si so se vars =
      executeAst fuel reg ext capture children none none none vars := by
  show (match execLoop reg ext capture fuel children none none none vars [] [] none with
    | .error err => .error err
    | .ok res =>
      execLoop reg ext capture fuel [] si so se res.vars
        ([] ++ res.output) ([] ++ res.spawned) res.job) =
    execLoop reg ext capture fuel children none none none vars [] [] none
  cases h : execLoop reg ext capture fuel children none none none vars [] [] none with
  | error err => rfl
  | ok res => simp [execLoop]

/-- C10 (confirmed): binding a `'*'`-arity non-boolean optional mutates the
command's stored `ParamSpec` in place, overwriting its arity with the
finite count of tokens the scan consumed from the flag onward
(`len(cli_args) - i`, the flag included); the spelling table is untouched,
so every alias still resolves to the same (now mutated) spec object; and a
subsequent binding of that option — under any spelling — consumes exactly
that fixed count of following tokens instead of all remaining ones, so
binding is not idempotent over the declared schema. -/
theorem C10_star_arity_overwritten_in_place
    (c : Command) (flag : String) (i : Nat) (spec : ParamSpec) (rest : List String)
    (hpos : c.positional = [])
    (hflag : dictGet c.optional flag = some i)
    (hlen : i < c.specs.length)
    (hspec : c.specs.getD i default = spec)
    (hbool : spec.is_bool = false)
    (hstar : spec.nargs = some .star)
    (hrest : rest ≠ []) :
    c.parse (some (flag :: rest)) =
      (.ok (some [], some [(spec.formatted_name, .list rest)]),
       { c with specs :=
          c.specs.set i { spec with nargs := some (.num (rest.length + 1)) } }) ∧
    ({ c with specs :=
        c.specs.set i { spec with nargs := some (.num (rest.length + 1)) } }).optional
      = c.optional ∧
    (c.specs.set i { spec with nargs := some (.num (rest.length + 1)) }).getD i default
      = { spec with nargs := some (.num (rest.length + 1)) } ∧
    (∀ (flag2 : String) (fuel : Nat) (toks : List String) (acc : List (String × PyVal)),
        dictGet c.optional flag2 = some i →
        parseOpts c.optional
            (c.specs.set i { spec with nargs := some (.num (rest.length + 1)) })
            (fuel + 1) (flag2 :: toks) acc =
          parseOpts c.optional
            (c.specs.set i { spec with nargs := some (.num (rest.length + 1)) })
            fuel (toks.drop (rest.length + 1))
            (dictSet acc spec.formatted_name (.list (toks.take (rest.length + 1))))) := by
  have hset : (c.specs.set i { spec with nargs := some (.num (rest.length + 1)) }).getD
      i default = { spec with nargs := some (.num (rest.length + 1)) } := by
    simp [List.getD_eq_getElem?_getD, List.getElem?_set, hlen]
  refine ⟨?_, rfl, hset, ?_⟩
  · have hdrop : rest.drop (rest.length + 1) = [] :=
      List.drop_eq_nil_of_le (Nat.le_succ _)
    have htake : rest.take (rest.length + 1) = rest :=
      List.take_of_length_le (Nat.le_succ _)
    have hspec2 : c.specs[i]?.getD default = spec := by
      rw [← List.getD_eq_getElem?_getD]
      exact hspec
    simp [Command.parse, hpos, parsePos, parseOpts, hflag, hspec2, hbool, hstar,
      hdrop, htake, dictSet]
  · intro flag2 fuel toks acc hflag2
    obtain ⟨r0, rs, rfl⟩ : ∃ r0 rs, rest = r0 :: rs := by
      cases rest with
      | nil => exact absurd rfl hrest
      | cons r0 rs => exact ⟨r0, rs, rfl⟩
    have hone : rs.length + 1 + 1 ≠ 1 := by simp
    have hset2 : (c.specs.set i
        { spec with nargs := some (.num ((r0 :: rs).length + 1)) })[i]?.getD default =
        { spec with nargs := some (.num ((r0 :: rs).length + 1)) } := by
      rw [← List.getD_eq_getElem?_getD]
      exact hset
    simp only [hbool, List.length_cons] at hset2
    simp [parseOpts, hflag2, hset2, hbool, hone]

/-- C10 (witness): the theorem at `manyCmd` with tokens
`-m a b c` — the stored arity becomes 4 (the flag plus three values) — and
a subsequent scan under the alias `--many` that consumes exactly four of
the five following tokens. -/
theorem C10_star_arity_overwritten_in_place_witness :
    manyCmd.parse (some ["-m", "a", "b", "c"]) =
      (.ok (some [], some [("many", .list ["a", "b", "c"])]),
       ⟨"collect", [], [("-m", 0), ("--many", 0)],
        [⟨"Optional", "-m|--many", "many", none, some (.num 4), none, false, none⟩]⟩) ∧
    parseOpts [("-m", 0), ("--many", 0)]
        [⟨"Optional", "-m|--many", "many", none, some (.num 4), none, false, none⟩]
        6 ["--many", "p", "q", "r", "s", "t"] [] =
      parseOpts [("-m", 0), ("--many", 0)]
        [⟨"Optional", "-m|--many", "many", none, some (.num 4), none, false, none⟩]
        5 ["t"] [("many", .list ["p", "q", "r", "s"])] := by
  have h := C10_star_arity_overwritten_in_place manyCmd "-m" 0
    (manyCmd.specs.getD 0 default) ["a", "b", "c"] rfl rfl (by decide) rfl rfl rfl
    (by decide)
  exact ⟨h.1, h.2.2.2 "--many" 5 ["p", "q", "r", "s", "t"] [] rfl⟩

/-- C1 (counterexample): the token sequence `a |` has one `|` token at one
nesting level and no redirections, the builder accepts it (only the
dangling-out marker is set), and the linker allocates *zero* pipe objects
(the allocation counter stays 0), not one as the claim demands. -/
theorem C1_counterexample :
    (["a", "|"].count "|") = 1 ∧
    buildAST noTokenize 1 ["a", "|"] =
      .ok [.cmd [.literal "a"] .inheritStdin .pipeOutMarker .inheritStderr] ∧
    linkPipes 1 [.cmd [.literal "a"] .inheritStdin .pipeOutMarker .inheritStderr] 0 =
      ([.cmd [.literal "a"] .inheritStdin .pipeOutMarker .inheritStderr], 0) :=
  ⟨rfl, rfl, rfl⟩

/-- C1 (amended): for every pipeline-shaped token sequence
`stage1 | stage2 | ... | stageK` — each stage a nonempty run of plain word
tokens, so every `|` lies between two stages (no dangling or consecutive
pipes, no redirections, one nesting level) — the sequence contains
`K - 1 = N` pipe tokens, the builder produces one command node per stage
with the matching markers, the linker allocates *exactly N* pipe objects
(allocation counter 0 to N), and each adjacent producer/consumer pair ends
up holding the very same pipe object: the producer's stdout and the
consumer's stdin carry the identical allocation identifier `i`, distinct
across pairs. -/
theorem C1_amended_pipeline_linking (tokenize : String → List String)
    (stages : List (List String)) (h1 : stages ≠ [])
    (h2 : ∀ s ∈ stages, s ≠ [])
    (h3 : ∀ s ∈ stages, ∀ t ∈ s, plainWord t = true) :
    (joinPipes stages).count "|" = stages.length - 1 ∧
    buildAST tokenize 1 (joinPipes stages) = .ok (chainFrom .inheritStdin stages) ∧
    linkPipes 1 (chainFrom .inheritStdin stages) 0 =
      (linkedChain .inheritStdin 0 stages, stages.length - 1) ∧
    (∀ i, i + 1 < stages.length →
      ∃ a b, (linkedChain .inheritStdin 0 stages)[i]? = some a ∧
        (linkedChain .inheritStdin 0 stages)[i + 1]? = some b ∧
        a.stdoutOf = .pipe i ∧ b.stdinOf = .pipe i) := by
  have hpa : ∀ t, plainWord t = true →
      parseArgument tokenize (buildAST tokenize 0) t = .ok (.literal t) :=
    fun t ht => parseArgument_plain tokenize (buildAST tokenize 0) t ht
  refine ⟨joinPipes_count stages h1 h3, ?_, ?_, ?_⟩
  · show (buildLoop (parseArgument tokenize (buildAST tokenize 0))
        ⟨[], [], none⟩ (joinPipes stages)).bind _ = _
    rw [buildLoop_pipeline (parseArgument tokenize (buildAST tokenize 0)) hpa
      stages [] none h1 h2 h3 (Or.inl rfl)]
    rfl
  · simpa using linkPipes_chain stages .inheritStdin 0
  · intro i hi
    simpa using linkedChain_adjacent stages .inheritStdin 0 i hi

/-- C1 (witness): the amended theorem at `echo a | consume`: one pipe
token, one allocated pipe object, and the producer's stdout and the
consumer's stdin holding the same object `pipe 0`. -/
theorem C1_amended_pipeline_linking_witness :
    (["echo", "a", "|", "consume"].count "|") = 1 ∧
    buildAST noTokenize 1 ["echo", "a", "|", "consume"] =
      .ok [.cmd [.literal "echo", .literal "a"] .inheritStdin .pipeOutMarker
            .inheritStderr,
           .cmd [.literal "consume"] .pipeInMarker .inheritStdout .inheritStderr] ∧
    linkPipes 1
        [.cmd [.literal "echo", .literal "a"] .inheritStdin .pipeOutMarker
          .inheritStderr,
         .cmd [.literal "consume"] .pipeInMarker .inheritStdout .inheritStderr] 0 =
      ([.cmd [.literal "echo", .literal "a"] .inheritStdin (.pipe 0) .inheritStderr,
        .cmd [.literal "consume"] (.pipe 0) .inheritStdout .inheritStderr], 1) ∧
    (∃ a b,
      ([Node.cmd [.literal "echo", .literal "a"] .inheritStdin (.pipe 0) .inheritStderr,
        Node.cmd [.literal "consume"] (.pipe 0) .inheritStdout .inheritStderr])[0]? =
          some a ∧
      ([Node.cmd [.literal "echo", .literal "a"] .inheritStdin (.pipe 0) .inheritStderr,
        Node.cmd [.literal "consume"] (.pipe 0) .inheritStdout .inheritStderr])[1]? =
          some b ∧
      a.stdoutOf = .pipe 0 ∧ b.stdinOf = .pipe 0) := by
  have h := C1_amended_pipeline_linking noTokenize [["echo", "a"], ["consume"]]
    (by decide) (by decide) (by decide)
  exact ⟨h.1, h.2.1, h.2.2.1, h.2.2.2 0 (by decide)⟩

end Shellhost
